import Mathlib

/-!
Verification of the natural-language specification of `aicscytoparam/cytoparam.py`
against a shallow embedding of its code in Lean 4.

Modelling conventions:
* numpy float arrays are modelled with exact rationals;
* 3D scalar fields (the heat-equation domain, probe images) are modelled as a
  dimension triple together with a total function on natural indices;
* labeled segmentation volumes (which the code slices) are modelled as nested lists;
* vtk polydata is modelled by a `Mesh` structure holding the ordered point list and
  the named per-point scalar arrays;
* fallible code paths (raised ValueError, failed reshape) are modelled in `Except`;
* the external spherical-harmonics routines of `aicsshparam` (declared external
  collaborators by the design document) are parameters of the embedded functions.
-/

/-- A 3D point, in the (x, y, z) order used by vtk `GetPoint`. -/
abbrev Pt : Type := ℚ × ℚ × ℚ

/-- Embedded vtk polydata: ordered points plus named per-point scalar arrays. -/
structure Mesh where
  points : List Pt
  arrays : List (String × List ℚ)
deriving DecidableEq, Repr

/-- Errors raised by the embedded functions (`raise ValueError` sites and the
numpy reshape failure inside `get_equipotential_surfaces_from_sh_coeffs`). -/
inductive CPError where
  | coeffMismatch
  | reshapeError
  | arrayNotFound
  | shapeMismatch
deriving DecidableEq, Repr

/-- Embedding of `heat_eq_step` (cytoparam.py lines 27-48).  The source performs
`omega[1:-1,1:-1,1:-1] += (six neighbor slices)/6 - omega[1:-1,1:-1,1:-1]`.
numpy evaluates the whole right-hand side from the pre-update array before the
in-place addition writes any voxel, so the update is synchronous: every interior
voxel is computed from the previous state only.  The field is a function on
natural indices together with the dimension triple `d`; indices on the outermost
layer (or outside the array) fall in the else branch and are returned unchanged,
exactly as the slicing `[1:-1,1:-1,1:-1]` leaves them untouched. -/
def heat_eq_step (d₁ d₂ d₃ : ℕ) (ω : ℕ → ℕ → ℕ → ℚ) : ℕ → ℕ → ℕ → ℚ :=
  fun i j k =>
    if 1 ≤ i ∧ i + 1 < d₁ ∧ 1 ≤ j ∧ j + 1 < d₂ ∧ 1 ≤ k ∧ k + 1 < d₃ then
      ω i j k +
        ((ω i j (k - 1) + ω i j (k + 1) + ω i (j - 1) k + ω i (j + 1) k +
          ω (i + 1) j k + ω (i - 1) j k) / 6 - ω i j k)
    else ω i j k

/-- A concrete 3x3x3 field used by witnesses. -/
def sampleField : ℕ → ℕ → ℕ → ℚ := fun i j k => (9 * i + 3 * j + k : ℚ)

/-- Minimum of a list of naturals with the numpy convention that `min` of an
empty axis is a precondition violation; used only on nonempty lists. -/
def listMinN (l : List ℕ) : ℕ :=
  match l with
  | [] => 0
  | a :: as => as.foldl min a

/-- Maximum of a list of naturals; used only on nonempty lists. -/
def listMaxN (l : List ℕ) : ℕ :=
  match l with
  | [] => 0
  | a :: as => as.foldl max a

/-- A labeled segmentation volume, indexed volume[z][y][x] as in numpy. -/
abbrev Vol3 : Type := List (List (List ℕ))

/-- Coordinates (z, y, x) of the nonzero voxels of a volume, as `np.where`
returns them. -/
def nonzeroCoords (v : Vol3) : List (ℕ × ℕ × ℕ) :=
  (List.range v.length).flatMap fun z =>
    (List.range ((v.getD z []).length)).flatMap fun y =>
      (List.range (((v.getD z []).getD y []).length)).filterMap fun x =>
        if ((v.getD z []).getD y []).getD x 0 ≠ 0 then some (z, y, x) else none

/-- Half-open numpy slicing `v[z0:z1, y0:y1, x0:x1]` on a nested-list volume. -/
def slice3 (v : Vol3) (z0 z1 y0 y1 x0 x1 : ℕ) : Vol3 :=
  ((v.drop z0).take (z1 - z0)).map fun plane =>
    ((plane.drop y0).take (y1 - y0)).map fun row =>
      (row.drop x0).take (x1 - x0)

/-- Embedding of `get_croppped_version` (cytoparam.py lines 12-25): bounding
coordinates of the nonzero voxels of `mem`, then both volumes sliced with the
source's half-open slices `mem[zmin:zmax, ymin:ymax, xmin:xmax]` (note: the
source does not add 1 to the maxima), returning also the offsets tuple. -/
def get_croppped_version (mem dna : Vol3) :
    Vol3 × Vol3 × (ℕ × ℕ × ℕ × ℕ × ℕ × ℕ) :=
  let coords := nonzeroCoords mem
  let zmin := listMinN (coords.map (fun c => c.1))
  let zmax := listMaxN (coords.map (fun c => c.1))
  let ymin := listMinN (coords.map (fun c => c.2.1))
  let ymax := listMaxN (coords.map (fun c => c.2.1))
  let xmin := listMinN (coords.map (fun c => c.2.2))
  let xmax := listMaxN (coords.map (fun c => c.2.2))
  (slice3 mem zmin zmax ymin ymax xmin xmax,
   slice3 dna zmin zmax ymin ymax xmin xmax,
   (zmin, zmax, ymin, ymax, xmin, xmax))

/-- Python `int()` applied to a float: truncation toward zero. -/
def pyInt (x : ℚ) : ℤ := if 0 ≤ x then ⌊x⌋ else ⌈x⌉

/-- A probe image: dimensions (z, y, x) and voxel values. -/
structure ProbeImage where
  dz : ℕ
  dy : ℕ
  dx : ℕ
  val : ℕ → ℕ → ℕ → ℚ

/-- numpy single-element integer indexing along one axis of size `n`: an index
`i` with `-n ≤ i < 0` wraps to `i + n`; an index outside `[-n, n)` raises
IndexError, modelled as `none`. -/
def adjIdx (n : ℕ) (i : ℤ) : Option ℕ :=
  let j := if i < 0 then i + n else i
  if 0 ≤ j ∧ j < n then some j.toNat else none

/-- All voxel values of a probe image, in C order. -/
def volVals (img : ProbeImage) : List ℚ :=
  (List.range img.dz).flatMap fun z =>
    (List.range img.dy).flatMap fun y =>
      (List.range img.dx).map fun x => img.val z y x

/-- Global minimum of a probe image (`img.min()`); used on nonempty images. -/
def volMin (img : ProbeImage) : ℚ :=
  match volVals img with
  | [] => 0
  | v :: vs => vs.foldl min v

/-- Embedding of the per-point body of `prob_image` (cytoparam.py lines 139-145):
`v = vmin; try: v = img[int(r[2]), int(r[1]), int(r[0])] except: pass`.  The
point `r` is in (x, y, z) order, the image is indexed (z, y, x); a lookup that
raises IndexError falls back to the global minimum, while negative indices
within `[-n, n)` are valid Python indices and read the wrapped voxel. -/
def probePoint (img : ProbeImage) (r : Pt) : ℚ :=
  match adjIdx img.dz (pyInt r.2.2), adjIdx img.dy (pyInt r.2.1),
      adjIdx img.dx (pyInt r.1) with
  | some a, some b, some c => img.val a b c
  | _, _, _ => volMin img

/-- A channel for `images_to_probe`: the image and the array name. -/
abbrev ImageChan : Type := ProbeImage × String

/-- Embedding of `prob_image` (cytoparam.py lines 126-148): for each (image,
name) pair, append a named scalar array holding the probed value at every mesh
point.  Points are not modified. -/
def prob_image (m : Mesh) (imgs : List ImageChan) : Mesh :=
  { m with arrays := m.arrays ++ imgs.map fun c =>
      (c.2, m.points.map (probePoint c.1)) }

/-- Embedding of `np.digitize(x, edges)` for an increasing edge list (the code
digitizes against `bins[::-1]`, which is increasing): the number of edges that
are at most `x`, i.e. the index `i` with `edges[i-1] <= x < edges[i]`. -/
def digitize (x : ℚ) (edges : List ℚ) : ℕ :=
  (edges.filter (fun e => e ≤ x)).length

/-- Minimum of a rational list (numpy `.min()`); used on nonempty lists. -/
def listMinQ (l : List ℚ) : ℚ :=
  match l with
  | [] => 0
  | a :: as => as.foldl min a

/-- Maximum of a rational list (numpy `.max()`); used on nonempty lists. -/
def listMaxQ (l : List ℚ) : ℚ :=
  match l with
  | [] => 0
  | a :: as => as.foldl max a

/-- Embedding of the bin-edge construction of `get_geodesics` (cytoparam.py
lines 108-109) applied to the raw list `exp(linspace(0,1,nisos)^4)`, plus the
reversal `bins[::-1]` performed at the `np.digitize` call sites: the raw bins
are min-max normalized, flipped with `1 - _`, and reversed into increasing
order.  The raw bins themselves involve the transcendental `exp`, so they are
kept as a parameter; the lemma `isoEdges_pair` below shows that for `nisos = 2`
the resulting edges are exactly `[0, 1]` whatever the value of `exp(1)` is. -/
def isoEdges (rawBins : List ℚ) : List ℚ :=
  ((rawBins.map fun b =>
      1 - (b - listMinQ rawBins) / (listMaxQ rawBins - listMinQ rawBins))).reverse

/-- Embedding of the nucleus digitization of `get_geodesics` (line 111):
`geodists[mask==2] = 1 + np.digitize(omega[mask==2], bins[::-1])`, as a function
of the voxel's log-field value. -/
def nucBand (edges : List ℚ) (x : ℚ) : ℕ := 1 + digitize x edges

/-- Embedding of the cytoplasm digitization of `get_geodesics` (line 113):
`geodists[mask==1] = (nisos+1) + np.digitize(omega[mask==1] - 1, bins[::-1])`,
as a function of the voxel's log-field value. -/
def cytBand (nisos : ℕ) (edges : List ℚ) (x : ℚ) : ℕ :=
  (nisos + 1) + digitize (x - 1) edges

/-- Embedding of `translate_mesh` (cytoparam.py lines 490-501): add the
displacement to every point.  The source also checks that `dr` has shape (1,3);
every call site in the file passes a (1,3) array, so the displacement is
modelled directly as a point. -/
def translate_mesh (m : Mesh) (dr : Pt) : Mesh :=
  { m with points := m.points.map fun p =>
      (p.1 + dr.1, p.2.1 + dr.2.1, p.2.2 + dr.2.2) }

/-- Piecewise-linear interpolation, as `scipy.interpolate.interp1d` with the
three breakpoints `[0, b1, 1]` built by
`get_equipotential_surfaces_from_sh_coeffs` evaluates it on `s` in `[0, 1]`:
on `[0, b1]` interpolate between the first and second control value, on
`(b1, 1]` between the second and third (the two formulas agree at `s = b1`). -/
def interpLin (b₁ v₀ v₁ v₂ s : ℚ) : ℚ :=
  if s ≤ b₁ then v₀ + (v₁ - v₀) * (s / b₁)
  else v₁ + (v₂ - v₁) * ((s - b₁) / (1 - b₁))

/-- Coefficient-wise piecewise-linear interpolation of the three coefficient
control points (`coeffs_interpolator`). -/
def interpCoeffs (b₁ : ℚ) (c₀ c₁ c₂ : List ℚ) (s : ℚ) : List ℚ :=
  List.zipWith (fun a b => interpLin b₁ a.1 a.2 b s) (c₀.zip c₁) c₂

/-- Component-wise piecewise-linear interpolation of the three centroid control
points (`centroids_interpolator`). -/
def interpPt (b₁ : ℚ) (p₀ p₁ p₂ : Pt) (s : ℚ) : Pt :=
  (interpLin b₁ p₀.1 p₁.1 p₂.1 s,
   interpLin b₁ p₀.2.1 p₁.2.1 p₂.2.1 s,
   interpLin b₁ p₀.2.2 p₁.2.2 p₂.2.2 s)

/-- The mesh built in one iteration of the reconstruction loop of
`get_equipotential_surfaces_from_sh_coeffs`: reconstruct the interpolated
coefficients, translate by the interpolated centroid when centroids were
supplied, probe images when supplied. -/
def shellMesh (recon : List ℚ → List Pt) (b₁ : ℚ) (ctr nuc mem : List ℚ)
    (centroids : Option (Pt × Pt × Pt)) (images_to_probe : Option (List ImageChan))
    (s : ℚ) : Mesh :=
  let mesh : Mesh := { points := recon (interpCoeffs b₁ ctr nuc mem s), arrays := [] }
  let mesh := match centroids with
    | none => mesh
    | some cs => translate_mesh mesh (interpPt b₁ cs.1 cs.2.1 cs.2.2 s)
  match images_to_probe with
  | none => mesh
  | some imgs => prob_image mesh imgs

/-- Embedding of `get_equipotential_surfaces_from_sh_coeffs` (cytoparam.py
lines 177-220).  The coefficient mappings are represented by their
insertion-ordered value lists (`[v for v in d.values()]`); the external
`shtools.get_reconstruction_from_coeffs` is the parameter `recon` (the design
document declares it a black box that maps a coefficient vector to a mesh on a
fixed reconstruction grid).  In source order: `nc` and `lmax` are computed, the
length mismatch raises before anything else, the control points and the
interpolator are assembled, and for each of the `1 + n1 + n2` samples of
`np.linspace(0, 1, 1 + np.sum(nisos))` the interpolated coefficients are
reshaped to `(2, lmax+1, lmax+1)` (failing unless their length is
`2*(lmax+1)^2`) and the shell mesh is built from them. -/
def get_equipotential_surfaces_from_sh_coeffs
    (recon : List ℚ → List Pt)
    (mem_coeffs nuc_coeffs : List ℚ) (n₁ n₂ : ℕ)
    (centroids : Option (Pt × Pt × Pt))
    (images_to_probe : Option (List ImageChan)) :
    Except CPError (List Mesh) :=
  let nc := mem_coeffs.length
  let lmax := Nat.sqrt (nc / 2) - 1
  if nc ≠ nuc_coeffs.length then .error .coeffMismatch
  else
    let ctr_coeffs : List ℚ := (List.range nc).map fun i : ℕ =>
      if i = 0 then (1 : ℚ) else 0
    let b₁ : ℚ := (n₁ : ℚ) / ((n₁ : ℚ) + (n₂ : ℚ))
    let svals : List ℚ := (List.range (1 + n₁ + n₂)).map fun idx : ℕ =>
      (idx : ℚ) / ((n₁ + n₂ : ℕ) : ℚ)
    svals.mapM fun s =>
      if (interpCoeffs b₁ ctr_coeffs nuc_coeffs mem_coeffs s).length ≠
          2 * (lmax + 1) ^ 2 then .error .reshapeError
      else .ok (shellMesh recon b₁ ctr_coeffs nuc_coeffs mem_coeffs centroids
        images_to_probe s)

/-- Square root used to model `np.sqrt` on the rationals.  It is exact whenever
the nonnegative argument has a perfect-square numerator and denominator; every
concrete distance evaluated in this file is of that form (for other arguments
the code computes an irrational float, which has no exact rational image). -/
def ratSqrt (x : ℚ) : ℚ := (Nat.sqrt x.num.toNat : ℚ) / (Nat.sqrt x.den : ℚ)

/-- Euclidean distance `np.sqrt(((np.array(ro) - np.array(r))**2).sum())`
between consecutive trace points (cytoparam.py line 311). -/
def dist3 (p q : Pt) : ℚ :=
  ratSqrt ((q.1 - p.1) ^ 2 + (q.2.1 - p.2.1) ^ 2 + (q.2.2 - p.2.2) ^ 2)

/-- Embedding of the cumulative-length loop of `get_traces` (cytoparam.py lines
305-313): `dr = 0.0; ro = [0,0,0]; for r in trace: dr += dist(ro, r); record dr;
ro = r`.  Note the running point starts at the coordinate origin, not at the
first trace point. -/
def lengthScan : Pt → ℚ → List Pt → List ℚ
  | _, _, [] => []
  | ro, dr, r :: rest => (dr + dist3 ro r) :: lengthScan r (dr + dist3 ro r) rest

/-- The polyline collection built by `get_traces`: the flattened points and the
per-point scalar arrays the source names isoval and length, plus any probed
arrays.  The line connectivity (one cell of `nshells` consecutive point ids per
original point index) is determined by the trace lengths and is not separately
modelled. -/
structure TracePoly where
  points : List Pt
  isovalArr : List ℚ
  lengthArr : List ℚ
  arrays : List (String × List ℚ)
deriving DecidableEq, Repr

/-- Embedding of `get_traces` (cytoparam.py lines 280-324): for each point index
`i` of the first mesh, gather the polyline of the point `i` of every mesh, tag
each of its points with the 0-based shell index (`enumerate`) and with the
running length of `lengthScan`, then optionally probe images at the collected
points.  Out-of-range `GetPoint` calls (meshes shorter than the first) are
undefined behaviour in vtk and are modelled by a default point. -/
def get_traces (meshes : List Mesh) (images_to_probe : Option (List ImageChan)) :
    TracePoly :=
  let npts := (meshes.headD ⟨[], []⟩).points.length
  let traces := (List.range npts).map fun i =>
    meshes.map fun m => m.points.getD i ((0 : ℚ), (0 : ℚ), (0 : ℚ))
  let base : TracePoly :=
    { points := traces.flatMap id
      isovalArr := traces.flatMap fun t => (List.range t.length).map fun k : ℕ => (k : ℚ)
      lengthArr := traces.flatMap fun t => lengthScan ((0 : ℚ), (0 : ℚ), (0 : ℚ)) 0 t
      arrays := [] }
  match images_to_probe with
  | none => base
  | some imgs =>
      { base with arrays := base.arrays ++ imgs.map fun c =>
          (c.2, base.points.map (probePoint c.1)) }

/-- Embedding of `parametrize` (cytoparam.py lines 393-426).  The external
`shparam.get_shcoeffs` is the parameter `fit`, taking the image, the degree and
the smoothing sigma and returning the coefficient values and the centroid (its
`compute_lcc` and `alignment_2d` flags are the same constants at both call
sites and are not modelled).  The source calls `fit` with the literals 32 and 1
for both surfaces, never with its own `lmax` and `sigma` arguments, builds the
centroid control points `np.c_[nuc_centroid, nuc_centroid, mem_centroid]`, and
chains the shell interpolation and the raw traces. -/
def parametrize {α : Type} (fit : α → ℕ → ℕ → List ℚ × Pt)
    (recon : List ℚ → List Pt) (seg_mem seg_nuc : α)
    (lmax sigma : ℕ) (n₁ n₂ : ℕ)
    (images_to_probe : Option (List ImageChan)) :
    Except CPError (List Mesh × TracePoly) :=
  let mem_fit := fit seg_mem 32 1
  let nuc_fit := fit seg_nuc 32 1
  let centroids := (nuc_fit.2, nuc_fit.2, mem_fit.2)
  (get_equipotential_surfaces_from_sh_coeffs recon mem_fit.1 nuc_fit.1 n₁ n₂
      (some centroids) images_to_probe).map
    fun meshes => (meshes, get_traces meshes images_to_probe)

/-- A source mesh file for `copy_content`: whether `os.path.exists` holds for
its path, and the named point arrays of the mesh it stores. -/
structure SourceMesh where
  present : Bool
  arrays : List (String × List ℚ)
deriving DecidableEq, Repr

/-- The zero vector `np.zeros(npts)`. -/
def zeros (npts : ℕ) : List ℚ := List.replicate npts 0

/-- Elementwise vector addition (`data[arr] += scalars`). -/
def vecAdd (a b : List ℚ) : List ℚ := List.zipWith (· + ·) a b

/-- Embedding of the per-source body of the `copy_content` loop (cytoparam.py
lines 436-466): a missing path is skipped entirely; otherwise for every
requested array name the mesh must contain the array (else ValueError), its
length must match the destination point count (else ValueError), it is divided
by its maximum when `normalize` holds and the maximum is positive, and it is
accumulated. -/
def accumSource (normalize : Bool) (npts : ℕ) (names : List String)
    (s : SourceMesh) (data : List (List ℚ)) : Except CPError (List (List ℚ)) :=
  if s.present then
    (names.zip data).mapM fun nd =>
      match s.arrays.lookup nd.1 with
      | none => .error .arrayNotFound
      | some sc =>
          if sc.length ≠ npts then .error .shapeMismatch
          else
            let sc := if normalize && decide (0 < listMaxQ sc)
              then sc.map (fun v => v / listMaxQ sc) else sc
            .ok (vecAdd nd.2 sc)
  else .ok data

/-- Embedding of `copy_content` (cytoparam.py lines 428-488): accumulators start
at zero, each listed source is folded with `accumSource`, then every accumulated
array is divided by the number of listed sources (`array /= len(sources)`) and
attached to the destination under the derived name `name_avg`. -/
def copy_content (sources : List SourceMesh) (npts : ℕ) (names : List String)
    (normalize : Bool) : Except CPError (List (String × List ℚ)) :=
  (sources.foldlM (fun data s => accumSource normalize npts names s data)
      (names.map fun _ => zeros npts)).map fun data =>
    (data.zip names).map fun an =>
      (an.2 ++ "_avg", an.1.map fun v => v / (sources.length : ℚ))

/-- Sum of the arrays of the present sources only, used to state what
`copy_content` actually attaches. -/
def sumPresent (npts : ℕ) (srcs : List (Bool × List ℚ)) : List ℚ :=
  srcs.foldl (fun acc s => if s.1 then vecAdd acc s.2 else acc) (zeros npts)

/-- The effective nonnegative position selected by Python indexing for an index
in `[-n, n)`: negative indices count from the end of the axis. -/
def pyWrap (n : ℕ) (i : ℤ) : ℕ := (if i < 0 then i + n else i).toNat

/-- A concrete 1x1x2 probe image with voxel values 5 and 7, used by the C6
counterexample and witness. -/
def imgC : ProbeImage :=
  { dz := 1, dy := 1, dx := 2, val := fun _ _ x => if x = 0 then 5 else 7 }

/-- The array a single source contributes to the accumulator: divided by its
maximum when normalization is requested and the maximum is positive, raw
otherwise (the `scalars /= smax` branch of `copy_content`). -/
def normArr (normalize : Bool) (sc : List ℚ) : List ℚ :=
  if normalize && decide (0 < listMaxQ sc) then sc.map (fun v => v / listMaxQ sc)
  else sc

/-- Claim C3: one heat-equation step replaces each interior voxel by the mean of
its 6 face neighbors taken from the previous state, and leaves the outermost
layer unchanged. -/
theorem heat_eq_step_jacobi (d₁ d₂ d₃ : ℕ) (ω : ℕ → ℕ → ℕ → ℚ) (i j k : ℕ)
    (h₁ : 3 ≤ d₁) (h₂ : 3 ≤ d₂) (h₃ : 3 ≤ d₃) :
    ((1 ≤ i ∧ i + 1 < d₁ ∧ 1 ≤ j ∧ j + 1 < d₂ ∧ 1 ≤ k ∧ k + 1 < d₃) →
      heat_eq_step d₁ d₂ d₃ ω i j k =
        (ω i j (k - 1) + ω i j (k + 1) + ω i (j - 1) k + ω i (j + 1) k +
          ω (i + 1) j k + ω (i - 1) j k) / 6) ∧
    ((i < d₁ ∧ j < d₂ ∧ k < d₃ ∧
        (i = 0 ∨ i = d₁ - 1 ∨ j = 0 ∨ j = d₂ - 1 ∨ k = 0 ∨ k = d₃ - 1)) →
      heat_eq_step d₁ d₂ d₃ ω i j k = ω i j k) := by
  constructor
  · intro hint
    rw [heat_eq_step, if_pos hint]
    ring
  · intro hbd
    rw [heat_eq_step, if_neg]
    rintro ⟨hi, hi', hj, hj', hk, hk'⟩
    rcases hbd.2.2.2 with h | h | h | h | h | h <;> omega

/-- Witness for C3: the theorem applied at the center and a corner of a concrete
3x3x3 field. -/
theorem heat_eq_step_jacobi_witness :
    heat_eq_step 3 3 3 sampleField 1 1 1 =
      (sampleField 1 1 0 + sampleField 1 1 2 + sampleField 1 0 1 +
        sampleField 1 2 1 + sampleField 2 1 1 + sampleField 0 1 1) / 6 ∧
    heat_eq_step 3 3 3 sampleField 0 0 0 = sampleField 0 0 0 := by
  constructor
  · exact (heat_eq_step_jacobi 3 3 3 sampleField 1 1 1 (by decide) (by decide)
      (by decide)).1 (by decide)
  · exact (heat_eq_step_jacobi 3 3 3 sampleField 0 0 0 (by decide) (by decide)
      (by decide)).2 (by decide)

/-- Claim C8 (evaluation at the failing input): for the 1x1x1 volumes whose
single voxel is nonzero, the bounding coordinates are all 0 and the half-open
slices `[0:0]` return empty volumes, so the nonzero membrane voxel at (0,0,0)
is not contained in the returned cropped arrays. -/
theorem get_croppped_version_drops_max_faces :
    get_croppped_version [[[1]]] [[[1]]] = ([], [], (0, 0, 0, 0, 0, 0)) ∧
    nonzeroCoords [[[1]]] = [(0, 0, 0)] := ⟨rfl, rfl⟩

/-- Claim C5 (evaluation at the failing input): for a single mesh whose only
point is (3, 4, 0), the raw trace tags the point with shell index 0 but records
cumulative length 5 (the distance from the coordinate origin to the first trace
point), not 0. -/
theorem get_traces_first_length_nonzero :
    (get_traces [⟨[((3 : ℚ), (4 : ℚ), (0 : ℚ))], []⟩] none).lengthArr = [5] ∧
    (get_traces [⟨[((3 : ℚ), (4 : ℚ), (0 : ℚ))], []⟩] none).isovalArr = [0] ∧
    (5 : ℚ) ≠ 0 := by
  refine ⟨?_, ?_, by norm_num⟩
  · have h25 : Nat.sqrt 25 = 5 := by
      have h : (25 : ℕ) = 5 ^ 2 := by norm_num
      rw [h, Nat.sqrt_eq']
    simp [get_traces, lengthScan, dist3, ratSqrt, List.range_succ]
    have e : ((3 : ℚ) ^ 2 + 4 ^ 2) = 25 := by norm_num
    rw [e]
    have h2 : (25 : ℚ).num.toNat = 25 := rfl
    have h3 : (25 : ℚ).den = 1 := rfl
    rw [h2, h3, h25, Nat.sqrt_one]
    norm_num
  · simp [get_traces, List.range_succ]

/-- Claim C10: `parametrize` calls the descriptor fit with the literals 32 and 1
and never reads its own `lmax` and `sigma` arguments, so two calls differing
only in those arguments return identical meshes and traces. -/
theorem parametrize_ignores_lmax_sigma {α : Type} (fit : α → ℕ → ℕ → List ℚ × Pt)
    (recon : List ℚ → List Pt) (seg_mem seg_nuc : α)
    (l₁ s₁ l₂ s₂ n₁ n₂ : ℕ) (imgs : Option (List ImageChan)) :
    parametrize fit recon seg_mem seg_nuc l₁ s₁ n₁ n₂ imgs =
      parametrize fit recon seg_mem seg_nuc l₂ s₂ n₁ n₂ imgs := rfl

/-- For two raw bins `[1, E]` (which is `exp(linspace(0,1,2)^4)` for any value
`E = exp(1) > 1`), the normalized reversed edges are exactly `[0, 1]`: the
edge list used by `get_geodesics` with `nisos = 2` is rational even though the
raw bins are transcendental. -/
lemma isoEdges_pair (E : ℚ) (hE : 1 < E) : isoEdges [1, E] = [0, 1] := by
  have h1 : min (1 : ℚ) E = 1 := min_eq_left hE.le
  have h3 : E - 1 ≠ 0 := sub_ne_zero.mpr hE.ne'
  simp only [isoEdges, listMinQ, listMaxQ, List.foldl, List.map, List.reverse,
    h1, max_eq_right hE.le]
  rw [div_self h3]
  norm_num

/-- Claim C4 (counterexample): with `nisos = 2` the digitization edges are
`[0, 1]`; a nucleus voxel whose log-field value is 1 (any voxel on the clamped
nucleus/cytoplasm interface) receives band 3, and a cytoplasm voxel whose
log-field value is 1/2 (below the cold clamp, e.g. a cytoplasm voxel inside the
dilated freeze region of a small nucleus) also receives band 3: the nucleus and
cytoplasm band ranges are not disjoint. -/
theorem geodesic_band_overlap_cex :
    isoEdges [1, 27 / 10] = [0, 1] ∧
    nucBand [0, 1] 1 = 3 ∧
    cytBand 2 [0, 1] (1 / 2) = 3 := by
  refine ⟨isoEdges_pair (27 / 10) (by norm_num),
    by norm_num [nucBand, digitize, List.filter],
    by norm_num [cytBand, digitize, List.filter]⟩

/-- Claim C4 (amended): every nucleus voxel receives a band in `1..nisos+1`,
every cytoplasm voxel a band in `nisos+1..2*nisos+1`; the two ranges meet in
the single value `nisos+1`, and a cytoplasm voxel's band is strictly greater
than every possible nucleus band exactly when its shifted log-field value
reaches some digitization edge. -/
theorem geodesic_band_ranges (nisos : ℕ) (edges : List ℚ) (x y : ℚ)
    (hlen : edges.length = nisos) :
    (1 ≤ nucBand edges x ∧ nucBand edges x ≤ nisos + 1) ∧
    ((nisos + 1 ≤ cytBand nisos edges y ∧ cytBand nisos edges y ≤ 2 * nisos + 1)) ∧
    ((∃ e ∈ edges, e ≤ y - 1) → nucBand edges x < cytBand nisos edges y) := by
  have hx : digitize x edges ≤ nisos := by
    unfold digitize; rw [← hlen]; exact List.length_filter_le _ _
  have hy : digitize (y - 1) edges ≤ nisos := by
    unfold digitize; rw [← hlen]; exact List.length_filter_le _ _
  refine ⟨⟨by simp [nucBand], by simp only [nucBand]; omega⟩,
    ⟨by simp [cytBand], by simp only [cytBand]; omega⟩, ?_⟩
  rintro ⟨e, he, hle⟩
  have hpos : 0 < digitize (y - 1) edges := by
    have : e ∈ edges.filter (fun e => e ≤ y - 1) :=
      List.mem_filter.mpr ⟨he, by simpa using hle⟩
    simpa [digitize] using List.length_pos_of_mem this
  simp only [nucBand, cytBand]
  omega

/-- Witness for C4's amended theorem at `nisos = 1`, edge list `[0]`, nucleus
value 0 and cytoplasm value 2. -/
theorem geodesic_band_ranges_witness :
    ([(0 : ℚ)].length = 1) ∧ nucBand [(0 : ℚ)] 0 < cytBand 1 [(0 : ℚ)] 2 :=
  ⟨rfl,
    (geodesic_band_ranges 1 [(0 : ℚ)] 0 2 rfl).2.2
      ⟨0, List.mem_singleton.mpr rfl, by norm_num⟩⟩

/-- Reduction of an Except bind on a success value. -/
lemma exceptBind_ok {ε α β : Type} (a : α) (f : α → Except ε β) :
    (Except.ok a >>= f) = f a := rfl

/-- Reduction of an Except bind on an error value. -/
lemma exceptBind_err {ε α β : Type} (e : ε) (f : α → Except ε β) :
    ((Except.error e : Except ε α) >>= f) = Except.error e := rfl

/-- Reduction of pure in the Except monad. -/
lemma exceptPure_eq {ε α : Type} (a : α) : (pure a : Except ε α) = Except.ok a := rfl

/-- A mapM whose body always succeeds returns the list of successes. -/
lemma mapM_ok {ε α β : Type} (f : α → Except ε β) (g : α → β) (l : List α)
    (h : ∀ a ∈ l, f a = Except.ok (g a)) : l.mapM f = Except.ok (l.map g) := by
  induction l with
  | nil => rfl
  | cons a as ih =>
      rw [List.mapM_cons, h a (List.mem_cons_self a as),
        exceptBind_ok, ih fun x hx => h x (List.mem_cons_of_mem a hx), exceptBind_ok,
        exceptPure_eq, List.map_cons]

/-- A mapM whose body never returns the error `e` does not return `e`. -/
lemma mapM_ne_error {ε α β : Type} (f : α → Except ε β) (l : List α) (e : ε)
    (h : ∀ a ∈ l, f a ≠ Except.error e) : l.mapM f ≠ Except.error e := by
  induction l with
  | nil =>
      rw [List.mapM_nil]
      exact fun hcon => Except.noConfusion hcon
  | cons a as ih =>
      rw [List.mapM_cons]
      cases hfa : f a with
      | error e1 =>
          rw [show ((Except.error e1 : Except ε β) >>= fun b =>
              as.mapM f >>= fun bs => pure (b :: bs)) = Except.error e1 from rfl]
          intro hcon
          injection hcon with h1
          exact h a (List.mem_cons_self a as) (by rw [hfa, h1])
      | ok b =>
          rw [show ((Except.ok b : Except ε β) >>= fun b =>
              as.mapM f >>= fun bs => pure (b :: bs)) =
            (as.mapM f >>= fun bs => pure (b :: bs)) from rfl]
          cases hm : as.mapM f with
          | error e1 =>
              rw [show ((Except.error e1 : Except ε (List β)) >>= fun bs =>
                  (pure (b :: bs) : Except ε (List β))) = Except.error e1 from rfl]
              intro hcon
              injection hcon with h1
              subst h1
              exact (ih fun x hx => h x (List.mem_cons_of_mem a hx)) hm
          | ok bs =>
              exact fun hcon => Except.noConfusion hcon

/-- Characterization of numpy single-axis indexing: a valid Python index wraps
to `pyWrap`. -/
lemma adjIdx_some (n : ℕ) (i : ℤ) (h : -(n : ℤ) ≤ i ∧ i < n) :
    adjIdx n i = some (pyWrap n i) := by
  unfold adjIdx pyWrap
  split_ifs with h1 <;> simp_all <;> omega

/-- Characterization of numpy single-axis indexing: an index outside `[-n, n)`
raises IndexError. -/
lemma adjIdx_none (n : ℕ) (i : ℤ) (h : i < -(n : ℤ) ∨ (n : ℤ) ≤ i) :
    adjIdx n i = none := by
  unfold adjIdx
  split_ifs with h1 <;> simp_all <;> omega

/-- Claim C6 (amended): a probed point whose truncated coordinates all lie in
`[0, dim)` reads the voxel at those coordinates; if any truncated coordinate
lies outside `[-dim, dim)` the indexing raises and the recorded value is the
volume's global minimum; but truncated coordinates that are negative while
within `[-dim, dim)` are valid Python indices that wrap around and read the
voxel from the opposite end of the axis, not the minimum. -/
theorem prob_image_probe_cases (img : ProbeImage) (r : Pt) :
    ((0 ≤ pyInt r.2.2 ∧ pyInt r.2.2 < img.dz ∧ 0 ≤ pyInt r.2.1 ∧
        pyInt r.2.1 < img.dy ∧ 0 ≤ pyInt r.1 ∧ pyInt r.1 < img.dx) →
      probePoint img r =
        img.val (pyInt r.2.2).toNat (pyInt r.2.1).toNat (pyInt r.1).toNat) ∧
    ((pyInt r.2.2 < -(img.dz : ℤ) ∨ (img.dz : ℤ) ≤ pyInt r.2.2 ∨
      pyInt r.2.1 < -(img.dy : ℤ) ∨ (img.dy : ℤ) ≤ pyInt r.2.1 ∨
      pyInt r.1 < -(img.dx : ℤ) ∨ (img.dx : ℤ) ≤ pyInt r.1) →
      probePoint img r = volMin img) ∧
    ((-(img.dz : ℤ) ≤ pyInt r.2.2 ∧ pyInt r.2.2 < img.dz ∧
      -(img.dy : ℤ) ≤ pyInt r.2.1 ∧ pyInt r.2.1 < img.dy ∧
      -(img.dx : ℤ) ≤ pyInt r.1 ∧ pyInt r.1 < img.dx) →
      probePoint img r =
        img.val (pyWrap img.dz (pyInt r.2.2)) (pyWrap img.dy (pyInt r.2.1))
          (pyWrap img.dx (pyInt r.1))) := by
  refine ⟨?_, ?_, ?_⟩
  · rintro ⟨hz0, hz1, hy0, hy1, hx0, hx1⟩
    have hz := adjIdx_some img.dz (pyInt r.2.2) ⟨by omega, hz1⟩
    have hy := adjIdx_some img.dy (pyInt r.2.1) ⟨by omega, hy1⟩
    have hx := adjIdx_some img.dx (pyInt r.1) ⟨by omega, hx1⟩
    unfold probePoint
    rw [hz, hy, hx]
    have wz : pyWrap img.dz (pyInt r.2.2) = (pyInt r.2.2).toNat := by
      unfold pyWrap; rw [if_neg (by omega)]
    have wy : pyWrap img.dy (pyInt r.2.1) = (pyInt r.2.1).toNat := by
      unfold pyWrap; rw [if_neg (by omega)]
    have wx : pyWrap img.dx (pyInt r.1) = (pyInt r.1).toNat := by
      unfold pyWrap; rw [if_neg (by omega)]
    rw [wz, wy, wx]
  · intro h
    unfold probePoint
    rcases hz : adjIdx img.dz (pyInt r.2.2) with _ | a
    · rfl
    rcases hy : adjIdx img.dy (pyInt r.2.1) with _ | b
    · rfl
    rcases hx : adjIdx img.dx (pyInt r.1) with _ | c
    · rfl
    exfalso
    rcases h with h | h | h | h | h | h
    · rw [adjIdx_none img.dz _ (Or.inl h)] at hz; exact Option.noConfusion hz
    · rw [adjIdx_none img.dz _ (Or.inr h)] at hz; exact Option.noConfusion hz
    · rw [adjIdx_none img.dy _ (Or.inl h)] at hy; exact Option.noConfusion hy
    · rw [adjIdx_none img.dy _ (Or.inr h)] at hy; exact Option.noConfusion hy
    · rw [adjIdx_none img.dx _ (Or.inl h)] at hx; exact Option.noConfusion hx
    · rw [adjIdx_none img.dx _ (Or.inr h)] at hx; exact Option.noConfusion hx
  · rintro ⟨hz0, hz1, hy0, hy1, hx0, hx1⟩
    unfold probePoint
    rw [adjIdx_some img.dz _ ⟨hz0, hz1⟩, adjIdx_some img.dy _ ⟨hy0, hy1⟩,
      adjIdx_some img.dx _ ⟨hx0, hx1⟩]

/-- Claim C6 (counterexample): in the 1x1x2 image with values 5 and 7 and
minimum 5, the point (-1, 0, 0) truncates to voxel coordinate (0, 0, -1),
which is outside the index range `[0, 2)` of the x axis; yet the code records
7 (the wrapped voxel img[0, 0, 1]), not the minimum 5. -/
theorem prob_image_negative_wrap_cex :
    probePoint imgC ((-1 : ℚ), (0 : ℚ), (0 : ℚ)) = 7 ∧
    volMin imgC = 5 ∧ pyInt (-1 : ℚ) = -1 ∧ ¬ (0 ≤ (-1 : ℤ)) ∧ (7 : ℚ) ≠ 5 := by
  have hm1 : pyInt (-1 : ℚ) = -1 := by
    have hc : ((-1 : ℚ)) = ((-1 : ℤ) : ℚ) := by norm_num
    rw [pyInt, if_neg (by norm_num), hc, Int.ceil_intCast]
  have h0 : pyInt (0 : ℚ) = 0 := by norm_num [pyInt]
  refine ⟨?_, ?_, hm1, by norm_num, by norm_num⟩
  · unfold probePoint imgC
    simp only [hm1, h0]
    rw [adjIdx_some 1 0 (by norm_num), adjIdx_some 2 (-1) (by norm_num)]
    norm_num [pyWrap]
  · unfold volMin volVals imgC
    simp [List.range_succ]
    norm_num

/-- Witness for C6's amended theorem: the in-range case at point (1, 0, 0) of
the concrete image, reading voxel value 7. -/
theorem prob_image_probe_cases_witness :
    probePoint imgC ((1 : ℚ), (0 : ℚ), (0 : ℚ)) = 7 := by
  have h0 : pyInt (0 : ℚ) = 0 := by norm_num [pyInt]
  have h1 : pyInt (1 : ℚ) = 1 := by norm_num [pyInt]
  have h := (prob_image_probe_cases imgC ((1 : ℚ), (0 : ℚ), (0 : ℚ))).1
    (by rw [h0, h1]; refine ⟨le_refl 0, ?_, le_refl 0, ?_, ?_, ?_⟩ <;> norm_num [imgC])
  rw [h, h0, h1]
  norm_num [imgC]

/-- Adding a vector to the zero accumulator of its own length returns it. -/
lemma vecAdd_zeros (A : List ℚ) : vecAdd (zeros A.length) A = A := by
  induction A with
  | nil => rfl
  | cons a as ih =>
      simp only [List.length_cons, zeros, List.replicate_succ, vecAdd,
        List.zipWith_cons_cons, zero_add]
      exact congrArg (a :: ·) ih

/-- Normalization preserves the array length. -/
lemma normArr_length (normalize : Bool) (sc : List ℚ) :
    (normArr normalize sc).length = sc.length := by
  unfold normArr
  split_ifs <;> simp

/-- One present source whose first array is the requested one accumulates its
(optionally normalized) array. -/
lemma accumSource_present (name : String) (A : List ℚ) (more : List (String × List ℚ))
    (B : List ℚ) (npts : ℕ) (hA : A.length = npts) (normalize : Bool) :
    accumSource normalize npts [name] ⟨true, (name, A) :: more⟩ [B] =
      Except.ok [vecAdd B (normArr normalize A)] := by
  unfold accumSource
  rw [if_pos rfl]
  have h1 : List.zip [name] [B] = [(name, B)] := rfl
  rw [h1]
  refine mapM_ok _ (fun nd => vecAdd nd.2 (normArr normalize A)) [(name, B)] ?_
  intro a ha
  rw [List.mem_singleton] at ha
  subst ha
  have hl : List.lookup name ((name, A) :: more) = some A := by
    simp [List.lookup]
  simp only [hl]
  rw [if_neg (by simp [hA])]
  rfl

/-- A missing source (`os.path.exists` false) is skipped without error. -/
lemma accumSource_absent (arrs : List (String × List ℚ)) (npts : ℕ)
    (names : List String) (data : List (List ℚ)) (normalize : Bool) :
    accumSource normalize npts names ⟨false, arrs⟩ data = Except.ok data := rfl

/-- The source fold of `copy_content` for single-array sources: present sources
accumulate their (optionally normalized) arrays, absent ones are skipped. -/
lemma foldl_accum (name : String) (npts : ℕ) (normalize : Bool)
    (srcs : List (Bool × List ℚ)) (h : ∀ s ∈ srcs, (s.2).length = npts) :
    ∀ B : List ℚ,
      (srcs.map fun s => (⟨s.1, [(name, s.2)]⟩ : SourceMesh)).foldlM
          (fun data s => accumSource normalize npts [name] s data) [B] =
        Except.ok [srcs.foldl
          (fun acc s => if s.1 then vecAdd acc (normArr normalize s.2) else acc) B] := by
  induction srcs with
  | nil => intro B; rfl
  | cons s ss ih =>
      intro B
      rw [List.map_cons, List.foldlM_cons]
      have hs := h s (List.mem_cons_self s ss)
      have ihh := ih fun x hx => h x (List.mem_cons_of_mem s hx)
      cases hp : s.1 with
      | false =>
          rw [accumSource_absent, exceptBind_ok, ihh B, List.foldl_cons, hp]
          simp
      | true =>
          rw [accumSource_present name s.2 [] B npts hs normalize, exceptBind_ok,
            ihh (vecAdd B (normArr normalize s.2)), List.foldl_cons, hp]
          simp

/-- What `copy_content` returns for a list of single-array sources: the sum of
the present sources' (optionally normalized) arrays divided by the number of
listed sources, attached under the derived name. -/
lemma copy_content_general (name : String) (npts : ℕ) (normalize : Bool)
    (srcs : List (Bool × List ℚ)) (h : ∀ s ∈ srcs, (s.2).length = npts) :
    copy_content (srcs.map fun s => ⟨s.1, [(name, s.2)]⟩) npts [name] normalize =
      Except.ok [(name ++ "_avg",
        (srcs.foldl (fun acc s => if s.1 then vecAdd acc (normArr normalize s.2) else acc)
            (zeros npts)).map fun v => v / (srcs.length : ℚ))] := by
  unfold copy_content
  rw [show ([name].map fun _ => zeros npts) = [zeros npts] from rfl,
    foldl_accum name npts normalize srcs h (zeros npts)]
  simp only [List.length_map]
  rfl

/-- Claim C9: a listed source whose path does not exist is skipped without any
error, yet the accumulated array is divided by the number of listed sources:
the attached output is the sum over the present sources divided by the full
list length, not an average over the present sources. -/
theorem copy_content_divides_by_listed_count (name : String) (npts : ℕ)
    (srcs : List (Bool × List ℚ)) (h : ∀ s ∈ srcs, (s.2).length = npts) :
    copy_content (srcs.map fun s => ⟨s.1, [(name, s.2)]⟩) npts [name] false =
      Except.ok [(name ++ "_avg",
        (sumPresent npts srcs).map fun v => v / (srcs.length : ℚ))] := by
  have hg := copy_content_general name npts false srcs h
  simpa [normArr, sumPresent] using hg

/-- Witness for C9: two listed sources, the second missing; the present array
[4] is divided by 2, giving [2] rather than the present-source average [4]. -/
theorem copy_content_divides_by_listed_count_witness :
    copy_content [⟨true, [("x", [(4 : ℚ)])]⟩, ⟨false, [("x", [(6 : ℚ)])]⟩]
        1 ["x"] false = Except.ok [("x_avg", [(2 : ℚ)])] := by
  have h := copy_content_divides_by_listed_count "x" 1
    [(true, [(4 : ℚ)]), (false, [(6 : ℚ)])] (by
      intro s hs
      rcases List.mem_cons.mp hs with rfl | hs2
      · rfl
      rcases List.mem_cons.mp hs2 with rfl | hs3
      · rfl
      cases hs3)
  rw [show ([(true, [(4 : ℚ)]), (false, [(6 : ℚ)])].map
      fun s => (⟨s.1, [("x", s.2)]⟩ : SourceMesh)) =
    [⟨true, [("x", [(4 : ℚ)])]⟩, ⟨false, [("x", [(6 : ℚ)])]⟩] from rfl] at h
  rw [h]
  have hsum : sumPresent 1 [(true, [(4 : ℚ)]), (false, [(6 : ℚ)])] = [(4 : ℚ)] := by
    norm_num [sumPresent, vecAdd, zeros]
  rw [hsum]
  norm_num
  rfl

/-- Claim C7 (amended): for one existing single-array source, the unnormalized
output equals the source array A; the normalized output equals A divided by
its maximum when that maximum is positive (hence equals A only when the
maximum is 1), and equals A when the maximum is nonpositive. -/
theorem copy_content_single_source (name : String) (A : List ℚ) (npts : ℕ)
    (hA : A.length = npts) :
    copy_content [⟨true, [(name, A)]⟩] npts [name] false =
      Except.ok [(name ++ "_avg", A)] ∧
    (0 < listMaxQ A →
      copy_content [⟨true, [(name, A)]⟩] npts [name] true =
        Except.ok [(name ++ "_avg", A.map fun v => v / listMaxQ A)]) ∧
    (listMaxQ A ≤ 0 →
      copy_content [⟨true, [(name, A)]⟩] npts [name] true =
        Except.ok [(name ++ "_avg", A)]) := by
  have key : ∀ normalize : Bool,
      copy_content [⟨true, [(name, A)]⟩] npts [name] normalize =
        Except.ok [(name ++ "_avg", (normArr normalize A).map fun v => v / 1)] := by
    intro normalize
    have hg := copy_content_general name npts normalize [(true, A)] (by
      intro s hs
      rcases List.mem_cons.mp hs with rfl | hs2
      · exact hA
      cases hs2)
    rw [show ([(true, A)].map fun s => (⟨s.1, [(name, s.2)]⟩ : SourceMesh)) =
      [⟨true, [(name, A)]⟩] from rfl] at hg
    rw [hg]
    have hfold : [(true, A)].foldl
        (fun acc s => if s.1 then vecAdd acc (normArr normalize s.2) else acc)
        (zeros npts) = normArr normalize A := by
      rw [List.foldl_cons, List.foldl_nil, if_pos rfl,
        show zeros npts = zeros ((normArr normalize A).length) by
          rw [normArr_length, hA],
        vecAdd_zeros]
    rw [hfold]
    norm_num
  refine ⟨?_, ?_, ?_⟩
  · have h := key false
    rw [h]
    simp [normArr, div_one]
  · intro hpos
    have h := key true
    rw [h]
    simp [normArr, hpos, div_one]
  · intro hneg
    have h := key true
    rw [h]
    have : ¬ (0 < listMaxQ A) := not_lt.mpr hneg
    simp [normArr, this, div_one]

/-- Claim C7 (counterexample): one existing source with array [2] and
normalization on: the attached output is [1] (the array divided by its maximum
2), not the source array [2]. -/
theorem copy_content_normalize_not_identity_cex :
    copy_content [⟨true, [("s", [(2 : ℚ)])]⟩] 1 ["s"] true =
      Except.ok [("s_avg", [(1 : ℚ)])] ∧ (1 : ℚ) ≠ 2 := by
  have hg := copy_content_general "s" 1 true [(true, [(2 : ℚ)])] (by
    intro s hs
    rcases List.mem_cons.mp hs with rfl | hs2
    · rfl
    cases hs2)
  rw [show ([(true, [(2 : ℚ)])].map fun s => (⟨s.1, [("s", s.2)]⟩ : SourceMesh)) =
    [⟨true, [("s", [(2 : ℚ)])]⟩] from rfl] at hg
  refine ⟨?_, by norm_num⟩
  rw [hg]
  have hmax : listMaxQ [(2 : ℚ)] = 2 := rfl
  norm_num [normArr, vecAdd, zeros, hmax]
  rfl

/-- Witness for C7's amended theorem at the source array [2]: unnormalized
output [2], normalized output [2 / 2]. -/
theorem copy_content_single_source_witness :
    copy_content [⟨true, [("s", [(2 : ℚ)])]⟩] 1 ["s"] false =
      Except.ok [("s_avg", [(2 : ℚ)])] ∧
    copy_content [⟨true, [("s", [(2 : ℚ)])]⟩] 1 ["s"] true =
      Except.ok [("s_avg", [(2 : ℚ)].map fun v => v / listMaxQ [(2 : ℚ)])] :=
  ⟨(copy_content_single_source "s" [(2 : ℚ)] 1 rfl).1,
   (copy_content_single_source "s" [(2 : ℚ)] 1 rfl).2.1 (by norm_num [listMaxQ])⟩

/-- The length of the interpolated coefficient vector. -/
lemma interpCoeffs_length (b₁ : ℚ) (c₀ c₁ c₂ : List ℚ) (s : ℚ) :
    (interpCoeffs b₁ c₀ c₁ c₂ s).length = min (min c₀.length c₁.length) c₂.length := by
  simp [interpCoeffs, List.length_zipWith, List.length_zip]

/-- The degree recovered from a coefficient count of the canonical shape
`2 * (lmax + 1)^2`. -/
lemma lmax_of_shape (l : ℕ) : Nat.sqrt (2 * (l + 1) ^ 2 / 2) - 1 = l := by
  rw [Nat.mul_div_cancel_left _ (by norm_num : 0 < 2), Nat.sqrt_eq']
  omega

/-- Every shell mesh has exactly the point count of the reconstruction grid:
translation and probing do not change the point list length. -/
lemma shellMesh_points_length (recon : List ℚ → List Pt) (gridN : ℕ)
    (hrecon : ∀ c, (recon c).length = gridN) (b₁ : ℚ) (ctr nuc mem : List ℚ)
    (centroids : Option (Pt × Pt × Pt)) (images : Option (List ImageChan)) (s : ℚ) :
    (shellMesh recon b₁ ctr nuc mem centroids images s).points.length = gridN := by
  cases centroids <;> cases images <;>
    simp [shellMesh, translate_mesh, prob_image, hrecon]

/-- Claim C2: a coefficient-length mismatch makes
`get_equipotential_surfaces_from_sh_coeffs` return the mismatch error, whatever
the reconstruction routine, the centroids and the probe images are (the guard
fires before any control-point assembly, interpolation or reconstruction);
with equal lengths the mismatch error is never returned. -/
theorem get_equipotential_surfaces_length_guard
    (recon : List ℚ → List Pt) (mem_coeffs nuc_coeffs : List ℚ) (n₁ n₂ : ℕ)
    (centroids : Option (Pt × Pt × Pt)) (imgs : Option (List ImageChan)) :
    (mem_coeffs.length ≠ nuc_coeffs.length →
      get_equipotential_surfaces_from_sh_coeffs recon mem_coeffs nuc_coeffs n₁ n₂
        centroids imgs = Except.error CPError.coeffMismatch) ∧
    (mem_coeffs.length = nuc_coeffs.length →
      get_equipotential_surfaces_from_sh_coeffs recon mem_coeffs nuc_coeffs n₁ n₂
        centroids imgs ≠ Except.error CPError.coeffMismatch) := by
  constructor
  · intro hne
    simp only [get_equipotential_surfaces_from_sh_coeffs]
    rw [if_pos hne]
  · intro heq
    simp only [get_equipotential_surfaces_from_sh_coeffs]
    rw [if_neg (fun h => h heq)]
    refine mapM_ne_error _ _ _ (fun s hs => ?_)
    dsimp only
    split_ifs with hc
    · intro h
      exact CPError.noConfusion (Except.error.inj h)
    · intro h
      exact Except.noConfusion h

/-- Witness for C2: a mismatched pair returns the mismatch error; an equal-
length pair does not. -/
theorem get_equipotential_surfaces_length_guard_witness :
    get_equipotential_surfaces_from_sh_coeffs (fun _ => []) [1] [] 1 1 none none =
      Except.error CPError.coeffMismatch ∧
    get_equipotential_surfaces_from_sh_coeffs (fun _ => []) [1, 2] [3, 4] 1 1 none none ≠
      Except.error CPError.coeffMismatch :=
  ⟨(get_equipotential_surfaces_length_guard (fun _ => []) [1] [] 1 1 none none).1
      (by norm_num),
   (get_equipotential_surfaces_length_guard (fun _ => []) [1, 2] [3, 4] 1 1 none none).2
      rfl⟩

/-- Claim C1: for coefficient vectors of equal length of the canonical shape
`2 * (l + 1)^2` and positive band counts, the routine succeeds and returns
exactly `1 + n1 + n2` meshes, each with the point count of the external
reconstruction grid (the hypothesis on `recon` is the design-document fact
that the black-box reconstruction always uses the same parametric grid). -/
theorem get_equipotential_surfaces_shell_count
    (recon : List ℚ → List Pt) (gridN : ℕ)
    (hrecon : ∀ c, (recon c).length = gridN)
    (mem_coeffs nuc_coeffs : List ℚ) (l n₁ n₂ : ℕ)
    (hnc : mem_coeffs.length = 2 * (l + 1) ^ 2)
    (heq : nuc_coeffs.length = mem_coeffs.length)
    (h₁ : 1 ≤ n₁) (h₂ : 1 ≤ n₂)
    (centroids : Option (Pt × Pt × Pt)) (imgs : Option (List ImageChan)) :
    ∃ ms, get_equipotential_surfaces_from_sh_coeffs recon mem_coeffs nuc_coeffs n₁ n₂
        centroids imgs = Except.ok ms ∧
      ms.length = 1 + n₁ + n₂ ∧ ∀ m ∈ ms, m.points.length = gridN := by
  refine ⟨((List.range (1 + n₁ + n₂)).map fun idx : ℕ =>
      ((idx : ℚ) / ((n₁ + n₂ : ℕ) : ℚ))).map
      (fun s => shellMesh recon ((n₁ : ℚ) / ((n₁ : ℚ) + (n₂ : ℚ)))
        ((List.range mem_coeffs.length).map fun i : ℕ => if i = 0 then (1 : ℚ) else 0)
        nuc_coeffs mem_coeffs centroids imgs s), ?_, ?_, ?_⟩
  · simp only [get_equipotential_surfaces_from_sh_coeffs]
    rw [if_neg (fun h => h heq.symm)]
    refine mapM_ok _ _ _ (fun s hs => ?_)
    rw [if_neg ?_]
    rw [interpCoeffs_length]
    simp only [List.length_map, List.length_range, heq]
    rw [hnc, lmax_of_shape]
    simp
  · rw [List.length_map, List.length_map, List.length_range]
  · intro m hm
    rw [List.mem_map] at hm
    obtain ⟨s, hs, rfl⟩ := hm
    exact shellMesh_points_length recon gridN hrecon _ _ _ _ _ _ _

/-- Witness for C1: coefficient pairs of length 2 (degree 0), one band on each
side, a constant one-point reconstruction grid: three meshes of one point. -/
theorem get_equipotential_surfaces_shell_count_witness :
    ∃ ms, get_equipotential_surfaces_from_sh_coeffs
        (fun _ => [((0 : ℚ), (0 : ℚ), (0 : ℚ))]) [(1 : ℚ), 2] [(3 : ℚ), 4] 1 1
        none none = Except.ok ms ∧
      ms.length = 1 + 1 + 1 ∧ ∀ m ∈ ms, m.points.length = 1 :=
  get_equipotential_surfaces_shell_count (fun _ => [((0 : ℚ), (0 : ℚ), (0 : ℚ))]) 1
    (fun _ => rfl) [(1 : ℚ), 2] [(3 : ℚ), 4] 0 1 1 (by norm_num) rfl
    (le_refl 1) (le_refl 1) none none
